import Mathlib

/-!
# Processes_Threads benchmark: a shallow embedding of `processes_threads_final.cc`

The C++ program times four kinds of work units (two CPU-bound, two sleeping)
under an OpenMP parallel loop, for 1, 2, ... workers, and prints a table.

Conventions of the embedding

* `int` values are mathematical integers kept in the range of a 32-bit
  two's-complement word by `wrap32` after every arithmetic operation.
* `double` values only occur as converted worker counts and as measured
  durations; they are the two constructors of `Dbl`.
* Everything the program cannot decide by itself is read from `Env`: the
  clock, the choices of the OpenMP runtime, the hardware concurrency and the
  text the C++ library produces for a measured duration.
* `World` is the mutable state: how much of the oracles has been consumed,
  an event log (`trace`) and the output stream `cout`.
-/

namespace ProcessesThreads

/-! ## 32-bit `int` arithmetic -/

/-- Reduction of an integer to the range of a 32-bit two's-complement `int`. -/
def wrap32 (x : Int) : Int := (x + 2147483648) % 4294967296 - 2147483648

/-- Addition on `int` with wraparound. -/
def add32 (a b : Int) : Int := wrap32 (a + b)

/-- Multiplication on `int` with wraparound. -/
def mul32 (a b : Int) : Int := wrap32 (a * b)

/-! ## `cpu_func` (source lines 14-19) -/

/-- One execution of the loop body
`result = (result * result * i + 2 * result * i * i + 3) % 10000000`,
every C++ operator applied at its own place, left to right, `%` truncating. -/
def cpu_step (result i : Int) : Int :=
  Int.tmod
    (add32 (add32 (mul32 (mul32 result result) i) (mul32 (mul32 (mul32 2 result) i) i)) 3)
    10000000

/-- The loop `for (int i = ...; i < niters; ++i)` of `cpu_func`, entered with
the current `result` and `i`.  Inside the loop `i < niters`, and `niters` is an
`int`, so `++i` cannot overflow and is a plain successor. -/
def cpu_loop (result i niters : Int) : Int :=
  if i < niters then cpu_loop (cpu_step result i) (i + 1) niters else result
termination_by (niters - i).toNat
decreasing_by omega

/-- The function `int cpu_func(int result, int niters)`. -/
def cpu_func (result niters : Int) : Int := cpu_loop result 0 niters

/-- The recurrence as the specification words it: the polynomial
`x*x*i + 2*x*i*i + 3` is computed, reduced once to a 32-bit word, and the
truncating remainder by ten million is taken. -/
def recurrence (x i : Int) : Int :=
  Int.tmod (wrap32 (x * x * i + 2 * x * i * i + 3)) 10000000

/-- Starting from `r`, apply `recurrence` for `i = 0, 1, ..., n - 1` in order,
each step on the value produced by the previous one. -/
def iterate_recurrence (r : Int) (n : Nat) : Int :=
  (List.range n).foldl (fun (x : Int) (i : Nat) => recurrence x (i : Int)) r

/-! ## The four work units (source lines 21-87) -/

/-- What a call of a unit does besides updating the unit. -/
inductive Effect where
  | compute
  | sleep_for (seconds : Int)
deriving DecidableEq, Repr

/-- The class `CpuThread`. -/
structure CpuThread where
  niters_ : Int
  result_ : Int
deriving DecidableEq, Repr

/-- The constructor `CpuThread(int niters)`. -/
def CpuThread.init (niters : Int) : CpuThread := { niters_ := niters, result_ := 1 }

/-- The call operator `CpuThread::operator()`. -/
def CpuThread.call (self : CpuThread) : CpuThread × Effect :=
  ({ self with result_ := cpu_func self.result_ self.niters_ }, Effect.compute)

/-- The accessor `CpuThread::getResult`. -/
def CpuThread.getResult (self : CpuThread) : Int := self.result_

/-- The class `CpuProcess`. -/
structure CpuProcess where
  niters_ : Int
  result_ : Int
deriving DecidableEq, Repr

/-- The constructor `CpuProcess(int niters)`. -/
def CpuProcess.init (niters : Int) : CpuProcess := { niters_ := niters, result_ := 1 }

/-- The call operator `CpuProcess::operator()`. -/
def CpuProcess.call (self : CpuProcess) : CpuProcess × Effect :=
  ({ self with result_ := cpu_func self.result_ self.niters_ }, Effect.compute)

/-- The accessor `CpuProcess::getResult`. -/
def CpuProcess.getResult (self : CpuProcess) : Int := self.result_

/-- The class `IoThread`. -/
structure IoThread where
  sleep_ : Int
  result_ : Int
deriving DecidableEq, Repr

/-- The constructor `IoThread(int sleep)`. -/
def IoThread.init (sleep : Int) : IoThread := { sleep_ := sleep, result_ := sleep }

/-- The call operator `IoThread::operator()`: it sleeps and stores nothing. -/
def IoThread.call (self : IoThread) : IoThread × Effect :=
  (self, Effect.sleep_for self.sleep_)

/-- The accessor `IoThread::getResult`. -/
def IoThread.getResult (self : IoThread) : Int := self.result_

/-- The class `IoProcess`. -/
structure IoProcess where
  sleep_ : Int
  result_ : Int
deriving DecidableEq, Repr

/-- The constructor `IoProcess(int sleep)`. -/
def IoProcess.init (sleep : Int) : IoProcess := { sleep_ := sleep, result_ := sleep }

/-- The call operator `IoProcess::operator()`: it sleeps and stores nothing. -/
def IoProcess.call (self : IoProcess) : IoProcess × Effect :=
  (self, Effect.sleep_for self.sleep_)

/-- The accessor `IoProcess::getResult`. -/
def IoProcess.getResult (self : IoProcess) : Int := self.result_

/-- What the templates `run_threads` and `run_processes` use of their type
argument: construction from one `int` and the call operator.  `getResult` and
the type's name are carried along for the event log. -/
class WorkUnit (U : Type) where
  type_name : String
  init : Int → U
  call : U → U × Effect
  getResult : U → Int

instance : WorkUnit CpuThread where
  type_name := "CpuThread"
  init := CpuThread.init
  call := CpuThread.call
  getResult := CpuThread.getResult

instance : WorkUnit CpuProcess where
  type_name := "CpuProcess"
  init := CpuProcess.init
  call := CpuProcess.call
  getResult := CpuProcess.getResult

instance : WorkUnit IoThread where
  type_name := "IoThread"
  init := IoThread.init
  call := IoThread.call
  getResult := IoThread.getResult

instance : WorkUnit IoProcess where
  type_name := "IoProcess"
  init := IoProcess.init
  call := IoProcess.call
  getResult := IoProcess.getResult

/-! ## Values of type `double`, events, the environment and the state -/

/-- The values of type `double` the program handles: a worker count converted
from `int` (exact), or the `count()` of a `duration<double>` obtained from a
difference of two clock readings, given in clock ticks. -/
inductive Dbl where
  | ofInt (n : Int)
  | seconds (ticks : Int)
deriving DecidableEq, Repr

/-- The field `std::ios_base::floatfield` of a stream. -/
inductive FloatField where
  | general
  | fixed
  | scientific
deriving DecidableEq, Repr

/-- The field `std::ios_base::adjustfield` of a stream, as far as the program
can set it. -/
inductive Adjust where
  | unset
  | left
  | right
deriving DecidableEq, Repr

/-- Exceptions of the C++ library that the program never catches. -/
inductive Exn where
  | invalid_argument
  | out_of_range
  | logic_error
  | length_error
deriving DecidableEq, Repr

/-- Entries of the event log.  `construct` is logged when a runner has built
its vector, with the size of the vector that was built; `destroy` when the
vector goes out of scope at the end of the runner, with the result stored in
every one of its units at that moment. -/
inductive Event where
  | construct (type_name : String) (count : Nat) (work_size : Int)
  | clock_now (reading : Int)
  | begin_call (index : Nat)
  | end_call (index : Nat) (effect : Effect) (result : Int)
  | destroy (results : List Int)
  | row (results : List Dbl)
deriving DecidableEq, Repr

/-- The stream `std::cout`: the text written so far and the formatting state.
The width is reset by every insertion; the other three fields are kept. -/
structure OStream where
  text : String := ""
  width : Nat := 0
  adjust : Adjust := Adjust.unset
  floatfield : FloatField := FloatField.general
  precision : Nat := 6
deriving DecidableEq, Repr

/-- What the program reads from its surroundings: successive readings of
`high_resolution_clock::now()`, successive choices of the OpenMP runtime, the
value of `std::thread::hardware_concurrency()`, and the text the library
produces for a measured duration under a given float format and precision. -/
structure Env where
  clock : Nat → Int
  omp : Nat → Nat
  hardware_concurrency : Nat
  show_seconds : FloatField → Nat → Int → String

/-- The mutable state of a run. -/
structure World where
  reads : Nat := 0
  picks : Nat := 0
  trace : List Event := []
  cout : OStream := {}

/-- How `main` ends. -/
inductive Exit where
  | returned (code : Int)
  | terminated (e : Exn)
deriving DecidableEq, Repr

/-- A finished run. -/
structure Outcome where
  exit : Exit
  world : World

/-- Append an event to the log. -/
def World.log (w : World) (e : Event) : World := { w with trace := w.trace ++ [e] }

/-- The call `std::chrono::high_resolution_clock::now()`. -/
def now (env : Env) (w : World) : Int × World :=
  (env.clock w.reads, { w with reads := w.reads + 1, trace := w.trace ++ [Event.clock_now (env.clock w.reads)] })

/-! ## The OpenMP loop and the two runners (source lines 89-119) -/

/-- The loop body `thread_objs[i]()`: the unit at index `i` is called in
place.  An index outside the vector is undefined in C++; the loop never
produces one, and the embedding leaves the state alone there. -/
def call_at {U : Type} [WorkUnit U] (objs : List U) (i : Nat) (w : World) : List U × World :=
  match objs[i]? with
  | some u =>
    let r := WorkUnit.call u
    (objs.set i r.1, w.log (Event.end_call i r.2 (WorkUnit.getResult r.1)))
  | none => (objs, w)

/-- The work-sharing loop `#pragma omp for schedule(dynamic, 1)` over
`0 <= i < n` run by a team of `team` threads.  `next` is the first index not
yet handed to a thread, `running` the indices whose call has begun and not yet
returned.  At every step the runtime (the oracle `env.omp`) either lets one of
the running calls return or, when an index is left and a thread is free, hands
the next index to a thread.  The loop is left when no index is left and no call
is running, which is the barrier closing the parallel region. -/
def omp_for {U : Type} [WorkUnit U] (env : Env) (team n : Nat) (objs : List U)
    (next : Nat) (running : List Nat) (w : World) : List U × World :=
  if _hs : next < n ∧ running.length < team then
    if hc : env.omp w.picks % (running.length + 1) < running.length then
      let i := running.get ⟨env.omp w.picks % (running.length + 1), hc⟩
      let r := call_at objs i { w with picks := w.picks + 1 }
      omp_for env team n r.1 next (running.erase i) r.2
    else
      omp_for env team n objs (next + 1) (running ++ [next])
        ({ w with picks := w.picks + 1 }.log (Event.begin_call next))
  else if hr : 0 < running.length then
    let i := running.get ⟨env.omp w.picks % running.length, Nat.mod_lt _ hr⟩
    let r := call_at objs i { w with picks := w.picks + 1 }
    omp_for env team n r.1 next (running.erase i) r.2
  else (objs, w)
termination_by 2 * (n - next) + running.length
decreasing_by
  · have hmem := List.get_mem running _ hc
    rw [List.length_erase_of_mem hmem]
    omega
  · have := _hs.1
    simp only [List.length_append, List.length_singleton]
    omega
  · have hmem := List.get_mem running _ (Nat.mod_lt (env.omp w.picks) hr)
    rw [List.length_erase_of_mem hmem]
    omega

/-- The region `#pragma omp parallel num_threads(requested)` around the loop
`for (int i = 0; i < n; ++i) objs[i]();`.  The runtime chooses the size of the
team, at least one thread and no more than requested. -/
def omp_parallel_for {U : Type} [WorkUnit U] (env : Env) (requested : Int) (n : Int)
    (objs : List U) (w : World) : List U × World :=
  omp_for env (1 + env.omp w.picks % requested.toNat) n.toNat objs 0 []
    { w with picks := w.picks + 1 }

/-- The template `run_threads<ThreadType>(nthreads, work_size, results)`.  A
negative `nthreads` becomes a size above `max_size()` and the vector
constructor throws. -/
def run_threads (ThreadType : Type) [WorkUnit ThreadType] (env : Env) (nthreads work_size : Int)
    (results : List Dbl) (w : World) : Except Exn (List Dbl × World) :=
  if nthreads < 0 then Except.error Exn.length_error
  else
    let thread_objs : List ThreadType := List.replicate nthreads.toNat (WorkUnit.init work_size)
    let w1 := w.log (Event.construct (WorkUnit.type_name ThreadType) thread_objs.length work_size)
    let start := now env w1
    let region := omp_parallel_for env nthreads nthreads thread_objs start.2
    let stop := now env region.2
    Except.ok (results ++ [Dbl.seconds (stop.1 - start.1)],
      stop.2.log (Event.destroy (region.1.map WorkUnit.getResult)))

/-- The template `run_processes<ProcessType>(nprocs, work_size, results)`. -/
def run_processes (ProcessType : Type) [WorkUnit ProcessType] (env : Env) (nprocs work_size : Int)
    (results : List Dbl) (w : World) : Except Exn (List Dbl × World) :=
  if nprocs < 0 then Except.error Exn.length_error
  else
    let process_objs : List ProcessType := List.replicate nprocs.toNat (WorkUnit.init work_size)
    let w1 := w.log (Event.construct (WorkUnit.type_name ProcessType) process_objs.length work_size)
    let start := now env w1
    let region := omp_parallel_for env nprocs nprocs process_objs start.2
    let stop := now env region.2
    Except.ok (results ++ [Dbl.seconds (stop.1 - start.1)],
      stop.2.log (Event.destroy (region.1.map WorkUnit.getResult)))

/-! ## Formatted output on `std::cout` -/

/-- Decimal digits of a natural number, most significant first. -/
def digits (m : Nat) : List Char := Nat.toDigits 10 m

/-- The quotient `m / 10 ^ k` rounded to the nearest integer, ties to even. -/
def round_half_even (m k : Nat) : Nat :=
  if 10 ^ k < 2 * (m % 10 ^ k) ∨ (2 * (m % 10 ^ k) = 10 ^ k ∧ (m / 10 ^ k) % 2 = 1)
  then m / 10 ^ k + 1 else m / 10 ^ k

/-- Mantissa (an integer of `p + 1` digits, zero for zero) and decimal
exponent of the natural number `m` rounded to `p + 1` significant digits. -/
def sci_parts (p m : Nat) : Nat × Nat :=
  if m = 0 then (0, 0)
  else if (digits m).length ≤ p + 1 then (m * 10 ^ (p + 1 - (digits m).length), (digits m).length - 1)
  else if round_half_even m ((digits m).length - (p + 1)) = 10 ^ (p + 1) then (10 ^ p, (digits m).length)
  else (round_half_even m ((digits m).length - (p + 1)), (digits m).length - 1)

/-- The exponent part of the `%e` conversion, a sign and at least two digits,
for a non-negative exponent. -/
def exponent_text (x : Nat) : List Char :=
  ['e', '+'] ++ (if x < 10 then ['0'] else []) ++ digits x

/-- Digits of a mantissa, filled with leading zeros to `p + 1` digits. -/
def mantissa_digits (p q : Nat) : List Char :=
  List.replicate (p + 1 - (digits q).length) '0' ++ digits q

/-- Drop the zeros at the end of a digit list. -/
def strip_zeros (ds : List Char) : List Char :=
  (ds.reverse.dropWhile (fun c => c == '0')).reverse

/-- The conversion `%.pe` of a natural number. -/
def sci_text (p m : Nat) : List Char :=
  let ds := mantissa_digits p (sci_parts p m).1
  ds.take 1 ++ (if p = 0 then [] else '.' :: ds.drop 1) ++ exponent_text (sci_parts p m).2

/-- The conversion `%.pf` of a natural number. -/
def fixed_text (p m : Nat) : List Char :=
  digits m ++ (if p = 0 then [] else '.' :: List.replicate p '0')

/-- The conversion `%.pg` of a natural number: with `P` the precision (one
when `p` is zero) and `X` the exponent of the `%e` conversion, the fixed style
is used when `X < P`, else the exponent style with precision `P - 1`; zeros at
the end of the fraction, and a point left without fraction, are removed. -/
def general_text (p m : Nat) : List Char :=
  let prec := if p = 0 then 1 else p
  if (sci_parts (prec - 1) m).2 < prec then digits m
  else
    let ds := mantissa_digits (prec - 1) (sci_parts (prec - 1) m).1
    let frac := strip_zeros (ds.drop 1)
    ds.take 1 ++ (if frac = [] then [] else '.' :: frac) ++ exponent_text (sci_parts (prec - 1) m).2

/-- Text of a natural number converted to `double`, under a float format. -/
def nat_text (ff : FloatField) (p m : Nat) : List Char :=
  match ff with
  | FloatField.general => general_text p m
  | FloatField.fixed => fixed_text p m
  | FloatField.scientific => sci_text p m

/-- Text of a `double` as `operator<<` produces it before padding.  Integer
values are converted exactly; the text of a measured duration is the
library's, read from the environment. -/
def double_text (env : Env) (ff : FloatField) (p : Nat) : Dbl → String
  | Dbl.ofInt n =>
    String.mk ((if n < 0 then ['-'] else []) ++ nat_text ff p n.natAbs)
  | Dbl.seconds t => env.show_seconds ff p t

/-- Pad a text to the field width: fill characters go after the text under
`left`, before it otherwise; a text as wide as the field or wider is kept. -/
def pad (adjust : Adjust) (width : Nat) (s : String) : String :=
  match adjust with
  | Adjust.left => s ++ String.mk (List.replicate (width - s.length) ' ')
  | _ => String.mk (List.replicate (width - s.length) ' ') ++ s

/-- The manipulator `std::setw(n)`. -/
def OStream.setw (o : OStream) (n : Nat) : OStream := { o with width := n }

/-- The manipulator `std::left`. -/
def OStream.left (o : OStream) : OStream := { o with adjust := Adjust.left }

/-- The manipulator `std::scientific`. -/
def OStream.scientific (o : OStream) : OStream := { o with floatfield := FloatField.scientific }

/-- The manipulator `std::setprecision(n)`. -/
def OStream.setprecision (o : OStream) (n : Nat) : OStream := { o with precision := n }

/-- Insertion of a `std::string`: padded to the width, which is then reset. -/
def OStream.put_string (o : OStream) (s : String) : OStream :=
  { o with text := o.text ++ pad o.adjust o.width s, width := 0 }

/-- Insertion of a `double`: converted under the stream's float format and
precision, padded to the width, which is then reset. -/
def OStream.put_double (env : Env) (o : OStream) (d : Dbl) : OStream :=
  { o with text := o.text ++ pad o.adjust o.width (double_text env o.floatfield o.precision d),
           width := 0 }

/-- The manipulator `std::endl`: a newline (the flush is not visible here). -/
def OStream.endl (o : OStream) : OStream := { o with text := o.text ++ "\n" }

/-! ## `std::stoi` -/

/-- The C function `isspace` in the "C" locale. -/
def isspace (c : Char) : Bool :=
  c.toNat = 32 || (9 ≤ c.toNat && c.toNat ≤ 13)

/-- Value of a string of decimal digits. -/
def digits_value (ds : List Char) : Nat :=
  ds.foldl (fun (a : Nat) (c : Char) => 10 * a + (c.toNat - 48)) 0

/-- The sign character that may start a number, and what follows it. -/
def split_sign (cs : List Char) : Bool × List Char :=
  match cs with
  | '-' :: t => (true, t)
  | '+' :: t => (false, t)
  | _ => (false, cs)

/-- The function `std::stoi(str)` with base ten, as the C++ standard defines it
through `strtol`: white space is skipped, one sign is accepted, the longest
run of digits is converted and what follows is ignored; `invalid_argument`
when there is no digit, `out_of_range` when the value is no `int`. -/
def stoi (str : String) : Except Exn Int :=
  let body := split_sign (str.toList.dropWhile isspace)
  let ds := body.2.takeWhile Char.isDigit
  if ds = [] then Except.error Exn.invalid_argument
  else
    let v : Int := if body.1 then -(digits_value ds : Int) else (digits_value ds : Int)
    if v < -2147483648 ∨ 2147483647 < v then Except.error Exn.out_of_range
    else Except.ok v

/-! ## `main` (source lines 121-169) -/

/-- One step of the loop `for (const auto& param : input_params)`: the chain
of string comparisons that selects the runner. -/
def dispatch (env : Env) (nthreads : Int) (param : String × Int) (results : List Dbl) (w : World) :
    Except Exn (List Dbl × World) :=
  if param.1 = "CpuThread" then run_threads CpuThread env nthreads param.2 results w
  else if param.1 = "CpuProcess" then run_processes CpuProcess env nthreads param.2 results w
  else if param.1 = "IoThread" then run_threads IoThread env nthreads param.2 results w
  else if param.1 = "IoProcess" then run_processes IoProcess env nthreads param.2 results w
  else Except.ok (results, w)

/-- The loop `for (const auto& param : input_params)` over the parameters left. -/
def run_params (env : Env) (nthreads : Int) :
    List (String × Int) → List Dbl → World → Except Exn (List Dbl × World)
  | [], results, w => Except.ok (results, w)
  | param :: rest, results, w =>
    match dispatch env nthreads param results w with
    | Except.error e => Except.error e
    | Except.ok r => run_params env nthreads rest r.1 r.2

/-- The first half of the body of the sweep loop (source lines 144-159):
`results` starts with the worker count converted to `double`, then every
parameter appends its measurement. -/
def build_row (env : Env) (input_params : List (String × Int)) (nthreads : Int) (w : World) :
    Except Exn (List Dbl × World) :=
  run_params env nthreads input_params [Dbl.ofInt nthreads] w

/-- The insertion `std::cout << std::setw(15) << std::left << std::scientific
<< std::setprecision(6) << x` of the inner printing loop. -/
def print_cell (env : Env) (o : OStream) (x : Dbl) : OStream :=
  (((((o.setw 15).left).scientific).setprecision 6).put_double env x)

/-- The second half of the body of the sweep loop (source lines 161-165).
Reading `results[0]` is defined because `results` is never empty there. -/
def print_row (env : Env) (results : List Dbl) (o : OStream) : OStream :=
  match results with
  | [] => o
  | first :: rest => ((rest.foldl (print_cell env) (((o.setw 10).left).put_double env first)).endl)

/-- The sweep loop `for (int nthreads = ...; nthreads < bound; ++nthreads)`,
entered with the current `nthreads`; `bound` is the value of `2 * cpu_count`.
An exception leaves the loop and ends the program. -/
def sweep (env : Env) (input_params : List (String × Int)) (bound : Int) (nthreads : Int)
    (w : World) : Outcome :=
  if nthreads < bound then
    match build_row env input_params nthreads w with
    | Except.error e => { exit := Exit.terminated e, world := w }
    | Except.ok r =>
      sweep env input_params bound (nthreads + 1)
        { r.2 with cout := print_row env r.1 r.2.cout, trace := r.2.trace ++ [Event.row r.1] }
  else { exit := Exit.returned 0, world := w }
termination_by (bound - nthreads).toNat
decreasing_by omega

/-- The vector `input_params` of `main`. -/
def input_params (cpu_n_iters sleep : Int) : List (String × Int) :=
  [("CpuThread", cpu_n_iters), ("CpuProcess", cpu_n_iters), ("IoThread", sleep), ("IoProcess", sleep)]

/-- The vector `header` of `main` after its loop. -/
def header (params : List (String × Int)) : List String :=
  ["nthreads"] ++ params.map (fun param => param.1)

/-- Source lines 137-141: the header line. -/
def print_header (hdr : List String) (o : OStream) : OStream :=
  match hdr with
  | [] => o
  | first :: rest =>
    ((rest.foldl (fun (acc : OStream) (h : String) => ((acc.setw 15).left).put_string h)
      (((o.setw 10).left).put_string first)).endl)

/-- The function `main`, on the argument vector (`argv[0]` included) and a
fresh state.  Without `argv[1]` the string argument of `std::stoi` is built
from a null pointer, which ends the program with `logic_error` before anything
else happens.  The conversion of the hardware concurrency from `unsigned` to
`int` and the product `2 * cpu_count` are 32-bit operations. -/
def main (env : Env) (argv : List String) : Outcome :=
  match argv[1]? with
  | none => { exit := Exit.terminated Exn.logic_error, world := {} }
  | some arg =>
    match stoi arg with
    | Except.error e => { exit := Exit.terminated e, world := {} }
    | Except.ok cpu_n_iters =>
      let sleep : Int := 1
      let cpu_count := wrap32 (env.hardware_concurrency : Int)
      let params := input_params cpu_n_iters sleep
      let w : World := { cout := print_header (header params) {} }
      sweep env params (mul32 2 cpu_count) 1 w

/-- The text on standard output at the end of a run. -/
def Outcome.stdout (r : Outcome) : String := r.world.cout.text

/-- The result vectors of the rows of a log, in the order they were printed. -/
def rows_of (trace : List Event) : List (List Dbl) :=
  trace.filterMap (fun e => match e with
    | Event.row r => some r
    | _ => none)

/-! ## Reference descriptions used by the statements -/

/-- The events of a batch of `n` units built with intensity `work_size`, listed
in index order: for every index the begin of its call and the return of its
call, the latter with the effect and the result of one call of a fresh unit. -/
def batch_events (U : Type) [WorkUnit U] (work_size : Int) (n : Nat) : List Event :=
  (List.range' 0 n).flatMap (fun i => [Event.begin_call i,
    Event.end_call i (WorkUnit.call (WorkUnit.init work_size : U)).2
      (WorkUnit.getResult (WorkUnit.call (WorkUnit.init work_size : U)).1)])

/-- The vector constructions (one per runner call) and the rows of a log, in
order; the events inside the batches are left out. -/
def outline_of (trace : List Event) : List Event :=
  trace.filter (fun e => match e with
    | Event.construct _ _ _ => true
    | Event.row _ => true
    | _ => false)

/-- The four runner calls of one row, as vector constructions: unit type,
number of units, intensity. -/
def expected_calls (nthreads cpu_n_iters sleep : Int) : List Event :=
  [Event.construct "CpuThread" nthreads.toNat cpu_n_iters,
   Event.construct "CpuProcess" nthreads.toNat cpu_n_iters,
   Event.construct "IoThread" nthreads.toNat sleep,
   Event.construct "IoProcess" nthreads.toNat sleep]

/-- The row of worker count `nthreads` when `c` clock readings were made
before it: the count, then four durations, each the difference of the two
readings of one runner call. -/
def expected_row (env : Env) (nthreads : Int) (c : Nat) : List Dbl :=
  [Dbl.ofInt nthreads,
   Dbl.seconds (env.clock (c + 1) - env.clock c),
   Dbl.seconds (env.clock (c + 3) - env.clock (c + 2)),
   Dbl.seconds (env.clock (c + 5) - env.clock (c + 4)),
   Dbl.seconds (env.clock (c + 7) - env.clock (c + 6))]

/-- The rows of `m` consecutive worker counts starting at `nthreads`. -/
def expected_rows (env : Env) : Int → Nat → Nat → List (List Dbl)
  | _, _, 0 => []
  | nthreads, c, m + 1 => expected_row env nthreads c :: expected_rows env (nthreads + 1) (c + 8) m

/-- Calls and rows of `m` consecutive worker counts starting at `nthreads`. -/
def expected_outline (env : Env) (cpu_n_iters sleep : Int) : Int → Nat → Nat → List Event
  | _, _, 0 => []
  | nthreads, c, m + 1 =>
    expected_calls nthreads cpu_n_iters sleep ++ [Event.row (expected_row env nthreads c)]
      ++ expected_outline env cpu_n_iters sleep (nthreads + 1) (c + 8) m

/-- A measurement cell: scientific format, six fractional digits, left-aligned
in a field of width 15. -/
def cell_text (env : Env) (x : Dbl) : String :=
  pad Adjust.left 15 (double_text env FloatField.scientific 6 x)

/-- The measurement cells of a row, one after the other. -/
def cells_text (env : Env) : List Dbl → String
  | [] => ""
  | x :: xs => cell_text env x ++ cells_text env xs

/-- A data line: the first value under the float format and precision the
stream has when the line starts, left-aligned in a field of width 10, then the
measurement cells, then a newline. -/
def row_line (env : Env) (ff : FloatField) (p : Nat) (row : List Dbl) : String :=
  match row with
  | [] => ""
  | first :: rest => pad Adjust.left 10 (double_text env ff p first) ++ cells_text env rest ++ "\n"

/-- The data lines of a table whose first line starts under the float format
`ff` and precision `p`: every later line starts under the scientific format
with precision six, which the cells of the line before have left set. -/
def rows_text (env : Env) : FloatField → Nat → List (List Dbl) → String
  | _, _, [] => ""
  | ff, p, r :: rs => row_line env ff p r ++ rows_text env FloatField.scientific 6 rs

/-- The data lines of the table as `main` prints them on a fresh stream. -/
def table_text (env : Env) (rows : List (List Dbl)) : String :=
  rows_text env FloatField.general 6 rows

/-- The header line of the program. -/
def header_line : String :=
  "nthreads  CpuThread      CpuProcess     IoThread       IoProcess      \n"

/-- An environment whose clock stands still: every reading is zero, so every
measured duration is zero seconds, printed like the number zero; the OpenMP
runtime always makes its first choice. -/
def still_env (hardware_concurrency : Nat) : Env :=
  { clock := fun _ => 0
    omp := fun _ => 0
    hardware_concurrency := hardware_concurrency
    show_seconds := fun ff p _ => String.mk (nat_text ff p 0) }

/-! ## Facts about 32-bit arithmetic and `cpu_func` -/

theorem wrap32_modEq (x : Int) : wrap32 x ≡ x [ZMOD 4294967296] := by
  unfold wrap32 Int.ModEq
  omega

theorem wrap32_congr {a b : Int} (h : a ≡ b [ZMOD 4294967296]) : wrap32 a = wrap32 b := by
  unfold wrap32
  unfold Int.ModEq at h
  omega

theorem wrap32_of_range {x : Int} (h1 : -2147483648 ≤ x) (h2 : x < 2147483648) : wrap32 x = x := by
  unfold wrap32
  omega

/-- Reducing after every operation or once at the end gives the same word. -/
theorem cpu_step_eq_recurrence (x i : Int) : cpu_step x i = recurrence x i := by
  unfold cpu_step recurrence add32 mul32
  congr 1
  apply wrap32_congr
  have h1 := wrap32_modEq (x * x)
  have h2 := wrap32_modEq (2 * x)
  have h3 := wrap32_modEq (wrap32 (x * x) * i)
  have h4 := wrap32_modEq (wrap32 (2 * x) * i)
  have h5 := wrap32_modEq (wrap32 (wrap32 (2 * x) * i) * i)
  have h6 := wrap32_modEq (wrap32 (wrap32 (x * x) * i) + wrap32 (wrap32 (wrap32 (2 * x) * i) * i))
  have e1 : wrap32 (wrap32 (x * x) * i) ≡ x * x * i [ZMOD 4294967296] := h3.trans (h1.mul_right i)
  have e2 : wrap32 (wrap32 (wrap32 (2 * x) * i) * i) ≡ 2 * x * i * i [ZMOD 4294967296] :=
    h5.trans ((h4.trans (h2.mul_right i)).mul_right i)
  exact (h6.trans (e1.add e2)).add_right 3

theorem cpu_loop_eq_foldl (k : Nat) : ∀ (r i : Int),
    cpu_loop r i (i + k)
      = (List.range k).foldl (fun (x : Int) (j : Nat) => cpu_step x (i + (j : Int))) r := by
  induction k with
  | zero =>
    intro r i
    rw [cpu_loop]
    simp
  | succ k ih =>
    intro r i
    rw [cpu_loop]
    have hlt : i < i + ((k + 1 : Nat) : Int) := by push_cast; omega
    rw [if_pos hlt]
    have hidx : i + ((k + 1 : Nat) : Int) = (i + 1) + (k : Int) := by push_cast; ring
    rw [hidx, ih, List.range_succ_eq_map, List.foldl_cons, List.foldl_map]
    simp only [Nat.cast_zero, add_zero, Nat.succ_eq_add_one, Nat.cast_add, Nat.cast_one]
    congr 1
    funext x j
    congr 1
    ring

theorem cpu_loop_done (r i n : Int) (h : n ≤ i) : cpu_loop r i n = r := by
  rw [cpu_loop, if_neg (by omega)]

theorem cpu_func_eq_iterate (r : Int) (n : Nat) : cpu_func r n = iterate_recurrence r n := by
  unfold cpu_func iterate_recurrence
  have h := cpu_loop_eq_foldl n r 0
  simp only [zero_add] at h
  rw [h]
  congr 1
  funext x j
  exact cpu_step_eq_recurrence x j

theorem recurrence_zero (x : Int) : recurrence x 0 = 3 := by
  unfold recurrence
  simp only [mul_zero, zero_add]
  decide

theorem recurrence_bounds (x i : Int) :
    -10000000 < recurrence x i ∧ recurrence x i < 10000000 := by
  unfold recurrence
  generalize wrap32 (x * x * i + 2 * x * i * i + 3) = a
  constructor
  · cases a with
    | ofNat m =>
      have h0 : (0 : Int) ≤ Int.tmod (Int.ofNat m) 10000000 :=
        Int.tmod_nonneg 10000000 (Int.ofNat_nonneg m)
      exact lt_of_lt_of_le (by decide) h0
    | negSucc m =>
      have h1 : Int.tmod (Int.negSucc m) 10000000 = -(((m + 1) % 10000000 : Nat) : Int) := rfl
      have h2 := Nat.mod_lt (m + 1) (show 0 < 10000000 by decide)
      rw [h1]
      omega
  · exact Int.tmod_lt_of_pos a (by decide)

theorem iterate_recurrence_succ (r : Int) (n : Nat) :
    iterate_recurrence r (n + 1) = recurrence (iterate_recurrence r n) n := by
  unfold iterate_recurrence
  rw [List.range_succ, List.foldl_append]
  rfl

theorem iterate_recurrence_seed (n : Nat) (r s : Int) :
    iterate_recurrence r (n + 1) = iterate_recurrence s (n + 1) := by
  induction n with
  | zero =>
    rw [iterate_recurrence_succ, iterate_recurrence_succ]
    simp only [Nat.cast_zero, recurrence_zero]
  | succ n ih =>
    rw [iterate_recurrence_succ r, iterate_recurrence_succ s, ih]

theorem cpu_func_seed (n : Int) (hn : 1 ≤ n) (r s : Int) : cpu_func r n = cpu_func s n := by
  obtain ⟨k, rfl⟩ : ∃ k : Nat, n = ((k + 1 : Nat) : Int) := ⟨(n - 1).toNat, by push_cast; omega⟩
  rw [cpu_func_eq_iterate, cpu_func_eq_iterate]
  exact iterate_recurrence_seed k r s

theorem cpu_func_bounds (n : Int) (hn : 1 ≤ n) (r : Int) :
    -10000000 < cpu_func r n ∧ cpu_func r n < 10000000 := by
  obtain ⟨k, rfl⟩ : ∃ k : Nat, n = ((k + 1 : Nat) : Int) := ⟨(n - 1).toNat, by push_cast; omega⟩
  rw [cpu_func_eq_iterate, iterate_recurrence_succ]
  exact recurrence_bounds _ _

/-! ## Claims on `cpu_func` and the work units -/

/-- C1: `cpu_func r n` is the value obtained from `r` by applying, for
`i = 0, ..., n - 1` in order, the 32-bit recurrence
`x ↦ (x*x*i + 2*x*i*i + 3) mod 10000000` with truncating remainder, each step
on the previous value; and `cpu_func 1 4 = 1910388` through 3, 18, 795. -/
theorem cpu_func_computes_recurrence :
    (∀ (r : Int) (n : Nat), cpu_func r n = iterate_recurrence r n)
    ∧ cpu_func 1 1 = 3 ∧ cpu_func 1 2 = 18 ∧ cpu_func 1 3 = 795 ∧ cpu_func 1 4 = 1910388 := by
  refine ⟨cpu_func_eq_iterate, ?_, ?_, ?_, ?_⟩
  · rw [show (1 : Int) = ((1 : Nat) : Int) from rfl, cpu_func_eq_iterate]; decide
  · rw [show (2 : Int) = ((2 : Nat) : Int) from rfl, cpu_func_eq_iterate]; decide
  · rw [show (3 : Int) = ((3 : Nat) : Int) from rfl, cpu_func_eq_iterate]; decide
  · rw [show (4 : Int) = ((4 : Nat) : Int) from rfl, cpu_func_eq_iterate]; decide

/-- C2: after one call, a CPU unit built with intensity `I` holds
`cpu_func 1 I` (both CPU types, hence equal to each other) and an I/O unit
holds `I`; before the call a CPU unit holds 1 and an I/O unit holds `I`. -/
theorem unit_results (I : Int) :
    (CpuThread.init I).call.1.getResult = cpu_func 1 I
    ∧ (CpuProcess.init I).call.1.getResult = cpu_func 1 I
    ∧ (CpuThread.init I).call.1.getResult = (CpuProcess.init I).call.1.getResult
    ∧ (IoThread.init I).call.1.getResult = I
    ∧ (IoProcess.init I).call.1.getResult = I
    ∧ (CpuThread.init I).getResult = 1
    ∧ (CpuProcess.init I).getResult = 1
    ∧ (IoThread.init I).getResult = I
    ∧ (IoProcess.init I).getResult = I :=
  ⟨rfl, rfl, rfl, rfl, rfl, rfl, rfl, rfl, rfl⟩

/-- C9: with an iteration count of zero, or a negative one, `cpu_func`
returns its seed unchanged. -/
theorem cpu_func_no_iteration (r n : Int) (hn : n ≤ 0) : cpu_func r n = r :=
  cpu_loop_done r 0 n hn

/-- Witness of C9: counts 0 and -5. -/
theorem cpu_func_no_iteration_witness :
    cpu_func 7 0 = 7 ∧ cpu_func (-2147483648) (-5) = -2147483648 :=
  ⟨cpu_func_no_iteration 7 0 (by decide), cpu_func_no_iteration (-2147483648) (-5) (by decide)⟩

/-- C10: for `n ≥ 1` the value of `cpu_func r n` does not depend on the seed
`r` and lies strictly between -10000000 and 10000000; hence calling a CPU unit
a second time leaves it as the first call left it. -/
theorem cpu_func_seed_independent (n : Int) (hn : 1 ≤ n) :
    (∀ r s : Int, cpu_func r n = cpu_func s n)
    ∧ (∀ r : Int, -10000000 < cpu_func r n ∧ cpu_func r n < 10000000)
    ∧ (CpuThread.init n).call.1.call.1 = (CpuThread.init n).call.1
    ∧ (CpuProcess.init n).call.1.call.1 = (CpuProcess.init n).call.1 := by
  refine ⟨cpu_func_seed n hn, cpu_func_bounds n hn, ?_, ?_⟩
  · simp only [CpuThread.call, CpuThread.init]
    rw [cpu_func_seed n hn (cpu_func 1 n) 1]
  · simp only [CpuProcess.call, CpuProcess.init]
    rw [cpu_func_seed n hn (cpu_func 1 n) 1]

/-- Witness of C10: four iterations. -/
theorem cpu_func_seed_independent_witness :
    (∀ r s : Int, cpu_func r 4 = cpu_func s 4)
    ∧ (∀ r : Int, -10000000 < cpu_func r 4 ∧ cpu_func r 4 < 10000000)
    ∧ (CpuThread.init 4).call.1.call.1 = (CpuThread.init 4).call.1
    ∧ (CpuProcess.init 4).call.1.call.1 = (CpuProcess.init 4).call.1 :=
  cpu_func_seed_independent 4 (by decide)

/-! ## The parallel loop -/

/-- The event logged when the call of a unit in state `u` at index `i` returns. -/
theorem call_at_of_some {U : Type} [WorkUnit U] (objs : List U) (i : Nat) (w : World) (u : U)
    (h : objs[i]? = some u) :
    call_at objs i w
      = (objs.set i (WorkUnit.call u).1,
         w.log (Event.end_call i (WorkUnit.call u).2 (WorkUnit.getResult (WorkUnit.call u).1))) := by
  unfold call_at
  rw [h]

theorem omp_for_spec {U : Type} [WorkUnit U] (env : Env) (team n : Nat) (hteam : 1 ≤ team) (u0 : U) :
    ∀ (m : Nat) (objs : List U) (next : Nat) (running : List Nat) (w : World),
      2 * (n - next) + running.length = m →
      next ≤ n → running.Nodup → (∀ i ∈ running, i < next) →
      (∀ i, i ∈ running ∨ (next ≤ i ∧ i < n) → objs[i]? = some u0) →
      ∃ ev : List Event,
        (omp_for env team n objs next running w).2.trace = w.trace ++ ev
        ∧ ev.Perm (running.map (fun i => Event.end_call i (WorkUnit.call u0).2
              (WorkUnit.getResult (WorkUnit.call u0).1))
            ++ (List.range' next (n - next)).flatMap (fun i => [Event.begin_call i,
              Event.end_call i (WorkUnit.call u0).2 (WorkUnit.getResult (WorkUnit.call u0).1)]))
        ∧ (∀ i, next ≤ i → i < n → [Event.begin_call i,
              Event.end_call i (WorkUnit.call u0).2 (WorkUnit.getResult (WorkUnit.call u0).1)].Sublist ev)
        ∧ (omp_for env team n objs next running w).2.reads = w.reads
        ∧ (omp_for env team n objs next running w).2.cout = w.cout := by
  intro m
  induction m using Nat.strong_induction_on with
  | _ m ih =>
    intro objs next running w hm hnext hnd hlt hobjs
    -- the step in which the call at `running[c]` returns
    have finish : ∀ (c : Nat) (hc : c < running.length),
        ∃ ev : List Event,
          (omp_for env team n (call_at objs (running.get ⟨c, hc⟩) { w with picks := w.picks + 1 }).1
            next (running.erase (running.get ⟨c, hc⟩))
            (call_at objs (running.get ⟨c, hc⟩) { w with picks := w.picks + 1 }).2).2.trace
              = w.trace ++ ev
          ∧ ev.Perm (running.map (fun i => Event.end_call i (WorkUnit.call u0).2
                (WorkUnit.getResult (WorkUnit.call u0).1))
              ++ (List.range' next (n - next)).flatMap (fun i => [Event.begin_call i,
                Event.end_call i (WorkUnit.call u0).2 (WorkUnit.getResult (WorkUnit.call u0).1)]))
          ∧ (∀ i, next ≤ i → i < n → [Event.begin_call i,
                Event.end_call i (WorkUnit.call u0).2
                  (WorkUnit.getResult (WorkUnit.call u0).1)].Sublist ev)
          ∧ (omp_for env team n (call_at objs (running.get ⟨c, hc⟩) { w with picks := w.picks + 1 }).1
              next (running.erase (running.get ⟨c, hc⟩))
              (call_at objs (running.get ⟨c, hc⟩) { w with picks := w.picks + 1 }).2).2.reads = w.reads
          ∧ (omp_for env team n (call_at objs (running.get ⟨c, hc⟩) { w with picks := w.picks + 1 }).1
              next (running.erase (running.get ⟨c, hc⟩))
              (call_at objs (running.get ⟨c, hc⟩) { w with picks := w.picks + 1 }).2).2.cout = w.cout := by
      intro c hc
      have hmem : running.get ⟨c, hc⟩ ∈ running := List.get_mem running c hc
      generalize running.get ⟨c, hc⟩ = i at hmem
      have hi : objs[i]? = some u0 := hobjs i (Or.inl hmem)
      rw [call_at_of_some objs i _ u0 hi]
      have hlen : (running.erase i).length = running.length - 1 := List.length_erase_of_mem hmem
      have hpos : 0 < running.length := List.length_pos_of_mem hmem
      obtain ⟨ev, h1, h2, h3, h4, h5⟩ := ih (2 * (n - next) + (running.erase i).length)
        (by omega) (objs.set i (WorkUnit.call u0).1) next (running.erase i)
        ({ w with picks := w.picks + 1 }.log
          (Event.end_call i (WorkUnit.call u0).2 (WorkUnit.getResult (WorkUnit.call u0).1)))
        rfl hnext (hnd.erase i)
        (fun j hj => hlt j (List.mem_of_mem_erase hj))
        (by
          intro j hj
          have hne : i ≠ j := by
            rcases hj with hj | hj
            · exact fun e => ((List.Nodup.mem_erase_iff hnd).1 hj).1 e.symm
            · have := hlt i hmem
              omega
          rw [List.getElem?_set, if_neg hne]
          rcases hj with hj | hj
          · exact hobjs j (Or.inl (List.mem_of_mem_erase hj))
          · exact hobjs j (Or.inr hj))
      refine ⟨Event.end_call i (WorkUnit.call u0).2 (WorkUnit.getResult (WorkUnit.call u0).1) :: ev,
        ?_, ?_, ?_, h4, h5⟩
      · rw [h1]
        simp [World.log]
      · have hp := (List.perm_cons_erase hmem).map (fun i => Event.end_call i (WorkUnit.call u0).2
          (WorkUnit.getResult (WorkUnit.call u0).1))
        rw [List.map_cons] at hp
        exact (List.Perm.cons _ h2).trans ((hp.append_right _).symm)
      · intro j hj1 hj2
        exact (h3 j hj1 hj2).cons _
    rw [omp_for]
    split
    · rename_i hs
      split
      · rename_i hc
        exact finish _ hc
      · -- the next index is handed to a free thread
        obtain ⟨k, hk⟩ : ∃ k, n - next = k + 1 := ⟨n - next - 1, by omega⟩
        obtain ⟨ev, h1, h2, h3, h4, h5⟩ := ih (2 * (n - (next + 1)) + (running ++ [next]).length)
          (by simp only [List.length_append, List.length_singleton]; omega)
          objs (next + 1) (running ++ [next])
          ({ w with picks := w.picks + 1 }.log (Event.begin_call next))
          rfl (by omega)
          (by
            rw [List.nodup_append]
            refine ⟨hnd, List.nodup_singleton _, ?_⟩
            intro a ha hb
            rw [List.mem_singleton] at hb
            have := hlt a ha
            omega)
          (by
            intro j hj
            rw [List.mem_append, List.mem_singleton] at hj
            rcases hj with hj | hj
            · have := hlt j hj
              omega
            · omega)
          (by
            intro j hj
            rw [List.mem_append, List.mem_singleton] at hj
            rcases hj with (hj | hj) | hj
            · exact hobjs j (Or.inl hj)
            · exact hobjs j (Or.inr ⟨by omega, by omega⟩)
            · exact hobjs j (Or.inr ⟨by omega, hj.2⟩))
        have hk' : n - (next + 1) = k := by omega
        rw [hk'] at h2
        refine ⟨Event.begin_call next :: ev, ?_, ?_, ?_, h4, h5⟩
        · rw [h1]
          simp [World.log]
        · rw [hk, List.range'_succ, List.flatMap_cons]
          have h2' := List.Perm.cons (Event.begin_call next) h2
          refine h2'.trans ?_
          simp only [List.map_append, List.map_cons, List.map_nil, List.append_assoc,
            List.singleton_append, List.cons_append, List.nil_append]
          exact List.perm_middle.symm
        · intro j hj1 hj2
          rcases Nat.eq_or_lt_of_le hj1 with hj | hj
          · subst hj
            have hin : Event.end_call next (WorkUnit.call u0).2
                (WorkUnit.getResult (WorkUnit.call u0).1) ∈ ev := by
              refine h2.symm.subset ?_
              simp
            exact (List.singleton_sublist.2 hin).cons₂ _
          · exact (h3 j (by omega) hj2).cons _
    · split
      · rename_i hs hr
        exact finish _ (Nat.mod_lt _ hr)
      · rename_i hs hr
        have hrun : running = [] := List.length_eq_zero.1 (by omega)
        have hn : n - next = 0 := by
          rw [hrun] at hs
          simp only [List.length_nil] at hs
          omega
        refine ⟨[], by simp, ?_, ?_, rfl, rfl⟩
        · rw [hrun, hn]
          simp
        · intro j hj1 hj2
          omega

/-- The units when the loop is left: every unit whose call was pending has
been called exactly once, every other unit is as it was, and no unit was added
or removed. -/
theorem omp_for_units {U : Type} [WorkUnit U] (env : Env) (team n : Nat) (hteam : 1 ≤ team) (u0 : U) :
    ∀ (m : Nat) (objs : List U) (next : Nat) (running : List Nat) (w : World),
      2 * (n - next) + running.length = m →
      next ≤ n → running.Nodup → (∀ i ∈ running, i < next) →
      (∀ i, i ∈ running ∨ (next ≤ i ∧ i < n) → objs[i]? = some u0) →
      (omp_for env team n objs next running w).1.length = objs.length
      ∧ (∀ i, i ∈ running ∨ (next ≤ i ∧ i < n) →
          (omp_for env team n objs next running w).1[i]? = some (WorkUnit.call u0).1)
      ∧ (∀ i, ¬ (i ∈ running ∨ (next ≤ i ∧ i < n)) →
          (omp_for env team n objs next running w).1[i]? = objs[i]?) := by
  intro m
  induction m using Nat.strong_induction_on with
  | _ m ih =>
    intro objs next running w hm hnext hnd hlt hobjs
    have finish : ∀ (c : Nat) (hc : c < running.length),
        (omp_for env team n (call_at objs (running.get ⟨c, hc⟩) { w with picks := w.picks + 1 }).1
          next (running.erase (running.get ⟨c, hc⟩))
          (call_at objs (running.get ⟨c, hc⟩) { w with picks := w.picks + 1 }).2).1.length
            = objs.length
        ∧ (∀ i, i ∈ running ∨ (next ≤ i ∧ i < n) →
            (omp_for env team n (call_at objs (running.get ⟨c, hc⟩) { w with picks := w.picks + 1 }).1
              next (running.erase (running.get ⟨c, hc⟩))
              (call_at objs (running.get ⟨c, hc⟩) { w with picks := w.picks + 1 }).2).1[i]?
                = some (WorkUnit.call u0).1)
        ∧ (∀ i, ¬ (i ∈ running ∨ (next ≤ i ∧ i < n)) →
            (omp_for env team n (call_at objs (running.get ⟨c, hc⟩) { w with picks := w.picks + 1 }).1
              next (running.erase (running.get ⟨c, hc⟩))
              (call_at objs (running.get ⟨c, hc⟩) { w with picks := w.picks + 1 }).2).1[i]?
                = objs[i]?) := by
      intro c hc
      have hmem : running.get ⟨c, hc⟩ ∈ running := List.get_mem running c hc
      generalize running.get ⟨c, hc⟩ = i at hmem
      have hi : objs[i]? = some u0 := hobjs i (Or.inl hmem)
      have hilen : i < objs.length := by
        rcases Nat.lt_or_ge i objs.length with h | h
        · exact h
        · rw [List.getElem?_eq_none h] at hi
          exact absurd hi (by simp)
      have hinext : i < next := hlt i hmem
      rw [call_at_of_some objs i _ u0 hi]
      have hlen : (running.erase i).length = running.length - 1 := List.length_erase_of_mem hmem
      have hpos : 0 < running.length := List.length_pos_of_mem hmem
      have hnot : i ∉ running.erase i := fun h => ((List.Nodup.mem_erase_iff hnd).1 h).1 rfl
      obtain ⟨k1, k2, k3⟩ := ih (2 * (n - next) + (running.erase i).length)
        (by omega) (objs.set i (WorkUnit.call u0).1) next (running.erase i)
        ({ w with picks := w.picks + 1 }.log
          (Event.end_call i (WorkUnit.call u0).2 (WorkUnit.getResult (WorkUnit.call u0).1)))
        rfl hnext (hnd.erase i)
        (fun j hj => hlt j (List.mem_of_mem_erase hj))
        (by
          intro j hj
          have hne : i ≠ j := by
            rcases hj with hj | hj
            · exact fun e => ((List.Nodup.mem_erase_iff hnd).1 hj).1 e.symm
            · omega
          rw [List.getElem?_set, if_neg hne]
          rcases hj with hj | hj
          · exact hobjs j (Or.inl (List.mem_of_mem_erase hj))
          · exact hobjs j (Or.inr hj))
      refine ⟨?_, ?_, ?_⟩
      · rw [k1, List.length_set]
      · intro j hj
        by_cases hji : j = i
        · subst hji
          rw [k3 j (by
            intro h
            rcases h with h | h
            · exact hnot h
            · omega)]
          rw [List.getElem?_set, if_pos rfl, if_pos hilen]
        · apply k2
          rcases hj with hj | hj
          · exact Or.inl ((List.mem_erase_of_ne hji).2 hj)
          · exact Or.inr hj
      · intro j hj
        have hji : j ≠ i := fun e => hj (Or.inl (e ▸ hmem))
        rw [k3 j (by
          intro h
          rcases h with h | h
          · exact hj (Or.inl (List.mem_of_mem_erase h))
          · exact hj (Or.inr h))]
        rw [List.getElem?_set, if_neg (fun e => hji e.symm)]
    rw [omp_for]
    split
    · rename_i hs
      split
      · rename_i hc
        exact finish _ hc
      · obtain ⟨k1, k2, k3⟩ := ih (2 * (n - (next + 1)) + (running ++ [next]).length)
          (by simp only [List.length_append, List.length_singleton]; omega)
          objs (next + 1) (running ++ [next])
          ({ w with picks := w.picks + 1 }.log (Event.begin_call next))
          rfl (by omega)
          (by
            rw [List.nodup_append]
            refine ⟨hnd, List.nodup_singleton _, ?_⟩
            intro a ha hb
            rw [List.mem_singleton] at hb
            have := hlt a ha
            omega)
          (by
            intro j hj
            rw [List.mem_append, List.mem_singleton] at hj
            rcases hj with hj | hj
            · have := hlt j hj
              omega
            · omega)
          (by
            intro j hj
            rw [List.mem_append, List.mem_singleton] at hj
            rcases hj with (hj | hj) | hj
            · exact hobjs j (Or.inl hj)
            · exact hobjs j (Or.inr ⟨by omega, by omega⟩)
            · exact hobjs j (Or.inr ⟨by omega, hj.2⟩))
        refine ⟨k1, ?_, ?_⟩
        · intro j hj
          apply k2
          rw [List.mem_append, List.mem_singleton]
          rcases hj with hj | hj
          · exact Or.inl (Or.inl hj)
          · rcases Nat.eq_or_lt_of_le hj.1 with e | e
            · exact Or.inl (Or.inr e.symm)
            · exact Or.inr ⟨e, hj.2⟩
        · intro j hj
          apply k3
          rw [List.mem_append, List.mem_singleton]
          intro h
          rcases h with (h | h) | h
          · exact hj (Or.inl h)
          · exact hj (Or.inr ⟨by omega, by omega⟩)
          · exact hj (Or.inr ⟨by omega, h.2⟩)
    · split
      · rename_i hs hr
        exact finish _ (Nat.mod_lt _ hr)
      · rename_i hs hr
        have hrun : running = [] := List.length_eq_zero.1 (by omega)
        refine ⟨rfl, ?_, ?_⟩
        · intro j hj
          rw [hrun] at hs hj
          simp only [List.length_nil] at hs
          rcases hj with hj | hj
          · exact absurd hj (List.not_mem_nil j)
          · omega
        · intro j _
          rfl

/-- The units of a whole region entered with `n` fresh units: each has been
called exactly once and there are still `n` of them. -/
theorem omp_for_units_fresh {U : Type} [WorkUnit U] (env : Env) (team n : Nat) (hteam : 1 ≤ team)
    (u0 : U) (w : World) :
    (omp_for env team n (List.replicate n u0) 0 [] w).1
      = List.replicate n (WorkUnit.call u0).1 := by
  obtain ⟨k1, k2, _⟩ := omp_for_units env team n hteam u0 (2 * (n - 0) + ([] : List Nat).length)
    (List.replicate n u0) 0 [] w rfl (Nat.zero_le _) List.nodup_nil
    (fun i hi => absurd hi (List.not_mem_nil i))
    (by
      intro i hi
      rcases hi with hi | hi
      · exact absurd hi (List.not_mem_nil i)
      · rw [List.getElem?_replicate, if_pos hi.2])
  rw [List.length_replicate] at k1
  apply List.ext_getElem?
  intro i
  rw [List.getElem?_replicate]
  by_cases hi : i < n
  · rw [if_pos hi]
    exact k2 i (Or.inr ⟨Nat.zero_le _, hi⟩)
  · rw [if_neg hi]
    exact List.getElem?_eq_none (by omega)

/-- What one call of `run_threads` does, for a count that is not negative. -/
theorem run_threads_spec (U : Type) [WorkUnit U] (env : Env) (N I : Int) (hN : 0 ≤ N)
    (results : List Dbl) (w : World) :
    ∃ (ev : List Event) (w' : World),
      run_threads U env N I results w
        = Except.ok (results ++ [Dbl.seconds (env.clock (w.reads + 1) - env.clock w.reads)], w')
      ∧ w'.trace = w.trace ++ [Event.construct (WorkUnit.type_name U) N.toNat I,
            Event.clock_now (env.clock w.reads)] ++ ev
            ++ [Event.clock_now (env.clock (w.reads + 1)),
                Event.destroy (List.replicate N.toNat
                  (WorkUnit.getResult (WorkUnit.call (WorkUnit.init I : U)).1))]
      ∧ ev.Perm (batch_events U I N.toNat)
      ∧ (∀ i, i < N.toNat → [Event.begin_call i,
            Event.end_call i (WorkUnit.call (WorkUnit.init I : U)).2
              (WorkUnit.getResult (WorkUnit.call (WorkUnit.init I : U)).1)].Sublist ev)
      ∧ w'.reads = w.reads + 2
      ∧ w'.cout = w.cout := by
  have hreg : ∃ ev : List Event,
      (omp_parallel_for env N N (List.replicate N.toNat (WorkUnit.init I : U))
          (now env (w.log (Event.construct (WorkUnit.type_name U) N.toNat I))).2).2.trace
        = w.trace ++ [Event.construct (WorkUnit.type_name U) N.toNat I,
            Event.clock_now (env.clock w.reads)] ++ ev
      ∧ ev.Perm (batch_events U I N.toNat)
      ∧ (∀ i, i < N.toNat → [Event.begin_call i,
            Event.end_call i (WorkUnit.call (WorkUnit.init I : U)).2
              (WorkUnit.getResult (WorkUnit.call (WorkUnit.init I : U)).1)].Sublist ev)
      ∧ (omp_parallel_for env N N (List.replicate N.toNat (WorkUnit.init I : U))
          (now env (w.log (Event.construct (WorkUnit.type_name U) N.toNat I))).2).2.reads
        = w.reads + 1
      ∧ (omp_parallel_for env N N (List.replicate N.toNat (WorkUnit.init I : U))
          (now env (w.log (Event.construct (WorkUnit.type_name U) N.toNat I))).2).2.cout
        = w.cout
      ∧ (omp_parallel_for env N N (List.replicate N.toNat (WorkUnit.init I : U))
          (now env (w.log (Event.construct (WorkUnit.type_name U) N.toNat I))).2).1
        = List.replicate N.toNat (WorkUnit.call (WorkUnit.init I : U)).1 := by
    unfold omp_parallel_for
    obtain ⟨ev, h1, h2, h3, h4, h5⟩ := omp_for_spec env (1 + env.omp (now env (w.log
        (Event.construct (WorkUnit.type_name U) N.toNat I))).2.picks % N.toNat) N.toNat
      (Nat.le_add_right 1 _) (WorkUnit.init I : U) (2 * (N.toNat - 0) + ([] : List Nat).length)
      (List.replicate N.toNat (WorkUnit.init I)) 0 []
      { (now env (w.log (Event.construct (WorkUnit.type_name U) N.toNat I))).2 with
        picks := (now env (w.log (Event.construct (WorkUnit.type_name U) N.toNat I))).2.picks + 1 }
      rfl (Nat.zero_le _) List.nodup_nil (fun i hi => absurd hi (List.not_mem_nil i))
      (by
        intro i hi
        rcases hi with hi | hi
        · exact absurd hi (List.not_mem_nil i)
        · rw [List.getElem?_replicate, if_pos hi.2])
    refine ⟨ev, ?_, ?_, ?_, ?_, ?_, ?_⟩
    · rw [h1]
      simp [now, World.log]
    · simpa [batch_events] using h2
    · intro i hi
      exact h3 i (Nat.zero_le _) hi
    · rw [h4]
      simp [now, World.log]
    · rw [h5]
      simp [now, World.log]
    · exact omp_for_units_fresh env _ N.toNat (Nat.le_add_right 1 _) (WorkUnit.init I : U) _
  obtain ⟨ev, h1, h2, h3, h4, h5, h6⟩ := hreg
  generalize hR : omp_parallel_for env N N (List.replicate N.toNat (WorkUnit.init I : U))
    (now env (w.log (Event.construct (WorkUnit.type_name U) N.toNat I))).2 = R at h1 h4 h5 h6
  refine ⟨ev, (now env R.2).2.log (Event.destroy (R.1.map WorkUnit.getResult)),
    ?_, ?_, h2, h3, ?_, ?_⟩
  · unfold run_threads
    rw [if_neg (by omega)]
    simp only [List.length_replicate, hR]
    simp only [now, h4, World.log]
  · simp only [now, h1, h4, h6, World.log, List.map_replicate, List.append_assoc,
      List.cons_append, List.nil_append]
  · simp only [now, h4, World.log]
  · simp only [now, h5, World.log]

theorem run_processes_eq_run_threads (U : Type) [WorkUnit U] (env : Env) (N I : Int)
    (results : List Dbl) (w : World) :
    run_processes U env N I results w = run_threads U env N I results w := rfl

/-! ## The sweep -/

theorem outline_of_append (a b : List Event) : outline_of (a ++ b) = outline_of a ++ outline_of b := by
  unfold outline_of
  rw [List.filter_append]

theorem rows_of_append (a b : List Event) : rows_of (a ++ b) = rows_of a ++ rows_of b := by
  unfold rows_of
  rw [List.filterMap_append]

theorem outline_of_batch (U : Type) [WorkUnit U] (I : Int) (n : Nat) (ev : List Event)
    (h : ev.Perm (batch_events U I n)) : outline_of ev = [] := by
  have hp := h.filter (fun e => match e with
    | Event.construct _ _ _ => true
    | Event.row _ => true
    | _ => false)
  have hb : (batch_events U I n).filter (fun e => match e with
    | Event.construct _ _ _ => true
    | Event.row _ => true
    | _ => false) = [] := by
    rw [List.filter_eq_nil_iff]
    intro a ha
    unfold batch_events at ha
    rw [List.mem_flatMap] at ha
    obtain ⟨i, _, hi⟩ := ha
    simp only [List.mem_cons, List.mem_singleton, List.not_mem_nil, or_false] at hi
    rcases hi with rfl | rfl <;> simp
  rw [hb] at hp
  exact hp.eq_nil

theorem rows_of_batch (U : Type) [WorkUnit U] (I : Int) (n : Nat) (ev : List Event)
    (h : ev.Perm (batch_events U I n)) : rows_of ev = [] := by
  have hp := h.filterMap (fun e => match e with
    | Event.row r => some r
    | _ => none)
  have hb : (batch_events U I n).filterMap (fun e => match e with
    | Event.row r => some r
    | _ => none) = [] := by
    rw [List.filterMap_eq_nil_iff]
    intro a ha
    unfold batch_events at ha
    rw [List.mem_flatMap] at ha
    obtain ⟨i, _, hi⟩ := ha
    simp only [List.mem_cons, List.mem_singleton, List.not_mem_nil, or_false] at hi
    rcases hi with rfl | rfl <;> rfl
  rw [hb] at hp
  exact hp.eq_nil

/-- One runner call seen from the sweep: one duration appended, two clock
readings consumed, the stream untouched, one construction in the outline. -/
theorem run_threads_outline (U : Type) [WorkUnit U] (env : Env) (N I : Int) (hN : 0 ≤ N)
    (results : List Dbl) (w : World) :
    ∃ (tr : List Event) (w' : World),
      run_threads U env N I results w
        = Except.ok (results ++ [Dbl.seconds (env.clock (w.reads + 1) - env.clock w.reads)], w')
      ∧ w'.trace = w.trace ++ tr
      ∧ outline_of tr = [Event.construct (WorkUnit.type_name U) N.toNat I]
      ∧ rows_of tr = []
      ∧ w'.reads = w.reads + 2
      ∧ w'.cout = w.cout := by
  obtain ⟨ev, w', h1, h2, h3, _, h5, h6⟩ := run_threads_spec U env N I hN results w
  refine ⟨[Event.construct (WorkUnit.type_name U) N.toNat I, Event.clock_now (env.clock w.reads)]
    ++ ev ++ [Event.clock_now (env.clock (w.reads + 1)),
      Event.destroy (List.replicate N.toNat
        (WorkUnit.getResult (WorkUnit.call (WorkUnit.init I : U)).1))], w', h1, ?_, ?_, ?_, h5, h6⟩
  · rw [h2]
    simp only [List.append_assoc]
  · rw [outline_of_append, outline_of_append, outline_of_batch U I N.toNat ev h3]
    rfl
  · rw [rows_of_append, rows_of_append, rows_of_batch U I N.toNat ev h3]
    rfl

theorem dispatch_CpuThread (env : Env) (k n : Int) (results : List Dbl) (w : World) :
    dispatch env k ("CpuThread", n) results w = run_threads CpuThread env k n results w := by
  unfold dispatch
  dsimp only
  rw [if_pos rfl]

theorem dispatch_CpuProcess (env : Env) (k n : Int) (results : List Dbl) (w : World) :
    dispatch env k ("CpuProcess", n) results w = run_threads CpuProcess env k n results w := by
  unfold dispatch
  dsimp only
  rw [if_neg (by decide), if_pos rfl]
  rfl

theorem dispatch_IoThread (env : Env) (k n : Int) (results : List Dbl) (w : World) :
    dispatch env k ("IoThread", n) results w = run_threads IoThread env k n results w := by
  unfold dispatch
  dsimp only
  rw [if_neg (by decide), if_neg (by decide), if_pos rfl]

theorem dispatch_IoProcess (env : Env) (k n : Int) (results : List Dbl) (w : World) :
    dispatch env k ("IoProcess", n) results w = run_threads IoProcess env k n results w := by
  unfold dispatch
  dsimp only
  rw [if_neg (by decide), if_neg (by decide), if_neg (by decide), if_pos rfl]
  rfl

theorem build_row_spec (env : Env) (n s k : Int) (hk : 0 ≤ k) (w : World) :
    ∃ (tr : List Event) (w' : World),
      build_row env (input_params n s) k w = Except.ok (expected_row env k w.reads, w')
      ∧ w'.trace = w.trace ++ tr
      ∧ outline_of tr = expected_calls k n s
      ∧ rows_of tr = []
      ∧ w'.reads = w.reads + 8
      ∧ w'.cout = w.cout := by
  obtain ⟨t1, w1, a1, a2, a3, a4, a5, a6⟩ :=
    run_threads_outline CpuThread env k n hk [Dbl.ofInt k] w
  obtain ⟨t2, w2, b1, b2, b3, b4, b5, b6⟩ :=
    run_threads_outline CpuProcess env k n hk
      ([Dbl.ofInt k] ++ [Dbl.seconds (env.clock (w.reads + 1) - env.clock w.reads)]) w1
  obtain ⟨t3, w3, c1, c2, c3, c4, c5, c6⟩ :=
    run_threads_outline IoThread env k s hk
      ([Dbl.ofInt k] ++ [Dbl.seconds (env.clock (w.reads + 1) - env.clock w.reads)]
        ++ [Dbl.seconds (env.clock (w1.reads + 1) - env.clock w1.reads)]) w2
  obtain ⟨t4, w4, d1, d2, d3, d4, d5, d6⟩ :=
    run_threads_outline IoProcess env k s hk
      ([Dbl.ofInt k] ++ [Dbl.seconds (env.clock (w.reads + 1) - env.clock w.reads)]
        ++ [Dbl.seconds (env.clock (w1.reads + 1) - env.clock w1.reads)]
        ++ [Dbl.seconds (env.clock (w2.reads + 1) - env.clock w2.reads)]) w3
  refine ⟨t1 ++ t2 ++ t3 ++ t4, w4, ?_, ?_, ?_, ?_, ?_, ?_⟩
  · unfold build_row input_params
    simp only [run_params]
    rw [dispatch_CpuThread, a1]
    simp only []
    rw [dispatch_CpuProcess, b1]
    simp only []
    rw [dispatch_IoThread, c1]
    simp only []
    rw [dispatch_IoProcess, d1]
    simp only [expected_row, List.cons_append, List.nil_append, a5, b5, c5]
  · rw [d2, c2, b2, a2]
    simp only [List.append_assoc]
  · simp only [outline_of_append, a3, b3, c3, d3]
    rfl
  · simp only [rows_of_append, a4, b4, c4, d4]
    rfl
  · omega
  · rw [d6, c6, b6, a6]

theorem cells_fold (env : Env) (xs : List Dbl) : ∀ (o : OStream),
    (xs.foldl (print_cell env) o).text = o.text ++ cells_text env xs := by
  induction xs with
  | nil =>
    intro o
    simp [cells_text]
  | cons x xs ih =>
    intro o
    rw [List.foldl_cons, ih]
    simp [print_cell, OStream.put_double, OStream.setprecision, OStream.scientific, OStream.left,
      OStream.setw, cells_text, cell_text, String.append_assoc]

theorem cells_fold_state (env : Env) (x : Dbl) (xs : List Dbl) : ∀ (o : OStream),
    ((x :: xs).foldl (print_cell env) o).width = 0
    ∧ ((x :: xs).foldl (print_cell env) o).adjust = Adjust.left
    ∧ ((x :: xs).foldl (print_cell env) o).floatfield = FloatField.scientific
    ∧ ((x :: xs).foldl (print_cell env) o).precision = 6 := by
  induction xs generalizing x with
  | nil =>
    intro o
    simp [print_cell, OStream.put_double, OStream.setprecision, OStream.scientific, OStream.left,
      OStream.setw]
  | cons y ys ih =>
    intro o
    rw [List.foldl_cons]
    exact ih y _

theorem print_row_spec (env : Env) (first x : Dbl) (xs : List Dbl) (o : OStream) :
    print_row env (first :: x :: xs) o
      = { text := o.text ++ row_line env o.floatfield o.precision (first :: x :: xs),
          width := 0, adjust := Adjust.left, floatfield := FloatField.scientific, precision := 6 } := by
  obtain ⟨s1, s2, s3, s4⟩ := cells_fold_state env x xs (((o.setw 10).left).put_double env first)
  have ht := cells_fold env (x :: xs) (((o.setw 10).left).put_double env first)
  unfold print_row
  simp only [OStream.endl]
  rw [s1, s2, s3, s4, ht]
  simp [OStream.put_double, OStream.left, OStream.setw, row_line, String.append_assoc]

theorem sweep_spec (env : Env) (n s bound : Int) : ∀ (m : Nat) (k : Int) (w : World),
    0 ≤ k → (bound - k).toNat = m →
    (sweep env (input_params n s) bound k w).exit = Exit.returned 0
    ∧ (∃ tr, (sweep env (input_params n s) bound k w).world.trace = w.trace ++ tr
        ∧ outline_of tr = expected_outline env n s k w.reads m
        ∧ rows_of tr = expected_rows env k w.reads m)
    ∧ (sweep env (input_params n s) bound k w).world.cout.text
        = w.cout.text ++ rows_text env w.cout.floatfield w.cout.precision
            (expected_rows env k w.reads m) := by
  intro m
  induction m with
  | zero =>
    intro k w hk hm
    rw [sweep, if_neg (by omega)]
    refine ⟨rfl, ⟨[], by simp, rfl, rfl⟩, ?_⟩
    simp [expected_rows, rows_text]
  | succ m ih =>
    intro k w hk hm
    obtain ⟨tr, w', b1, b2, b3, b4, b5, b6⟩ := build_row_spec env n s k hk w
    rw [sweep, if_pos (by omega), b1]
    simp only []
    obtain ⟨e1, ⟨tr', e2, e3, e4⟩, e5⟩ := ih (k + 1)
      { w' with cout := print_row env (expected_row env k w.reads) w'.cout,
                trace := w'.trace ++ [Event.row (expected_row env k w.reads)] }
      (by omega) (by omega)
    refine ⟨e1, ⟨tr ++ [Event.row (expected_row env k w.reads)] ++ tr', ?_, ?_, ?_⟩, ?_⟩
    · rw [e2, b2]
      simp only [List.append_assoc]
    · rw [outline_of_append, outline_of_append, b3, e3]
      simp only [b5, expected_outline]
      rfl
    · rw [rows_of_append, rows_of_append, b4, e4]
      simp only [b5, expected_rows]
      rfl
    · rw [e5]
      simp only [b5, b6, expected_rows, rows_text]
      rw [show expected_row env k w.reads = Dbl.ofInt k ::
        Dbl.seconds (env.clock (w.reads + 1) - env.clock w.reads) ::
        [Dbl.seconds (env.clock (w.reads + 3) - env.clock (w.reads + 2)),
         Dbl.seconds (env.clock (w.reads + 5) - env.clock (w.reads + 4)),
         Dbl.seconds (env.clock (w.reads + 7) - env.clock (w.reads + 6))] from rfl,
        print_row_spec]
      simp only [String.append_assoc]

theorem print_header_eq (n s : Int) :
    print_header (header (input_params n s)) {}
      = { text := header_line, width := 0, adjust := Adjust.left,
          floatfield := FloatField.general, precision := 6 } := by
  rfl

/-- With a first argument that `std::stoi` accepts, `main` prints the header
and enters the sweep. -/
theorem main_of_valid (env : Env) (argv : List String) (arg : String) (n : Int)
    (harg : argv[1]? = some arg) (hn : stoi arg = Except.ok n) :
    main env argv
      = sweep env (input_params n 1) (mul32 2 (wrap32 (env.hardware_concurrency : Int))) 1
          { cout := { text := header_line, width := 0, adjust := Adjust.left,
                      floatfield := FloatField.general, precision := 6 } } := by
  unfold main
  rw [harg]
  simp only [hn, print_header_eq]

/-- The sweep entered at worker count one on a state that has the header on
the stream and nothing else. -/
theorem sweep_from_start (env : Env) (n bound : Int) (w0 : World) (t0 : w0.trace = [])
    (t1 : w0.reads = 0) (t2 : w0.cout.text = header_line)
    (t3 : w0.cout.floatfield = FloatField.general) (t4 : w0.cout.precision = 6) :
    (sweep env (input_params n 1) bound 1 w0).exit = Exit.returned 0
    ∧ outline_of (sweep env (input_params n 1) bound 1 w0).world.trace
        = expected_outline env n 1 1 0 (bound - 1).toNat
    ∧ rows_of (sweep env (input_params n 1) bound 1 w0).world.trace
        = expected_rows env 1 0 (bound - 1).toNat
    ∧ (sweep env (input_params n 1) bound 1 w0).stdout
        = header_line ++ table_text env (expected_rows env 1 0 (bound - 1).toNat) := by
  obtain ⟨e1, ⟨tr, e2, e3, e4⟩, e5⟩ :=
    sweep_spec env n 1 bound (bound - 1).toNat 1 w0 (by omega) rfl
  rw [t0, List.nil_append] at e2
  rw [t1] at e3 e4 e5
  rw [t2, t3, t4] at e5
  refine ⟨e1, ?_, ?_, ?_⟩
  · rw [e2]
    exact e3
  · rw [e2]
    exact e4
  · unfold Outcome.stdout table_text
    exact e5

/-- The run of `main` on an accepted argument, in full. -/
theorem main_spec (env : Env) (argv : List String) (arg : String) (n : Int)
    (harg : argv[1]? = some arg) (hn : stoi arg = Except.ok n) :
    (main env argv).exit = Exit.returned 0
    ∧ outline_of (main env argv).world.trace
        = expected_outline env n 1 1 0 (mul32 2 (wrap32 (env.hardware_concurrency : Int)) - 1).toNat
    ∧ rows_of (main env argv).world.trace
        = expected_rows env 1 0 (mul32 2 (wrap32 (env.hardware_concurrency : Int)) - 1).toNat
    ∧ (main env argv).stdout
        = header_line ++ table_text env
            (expected_rows env 1 0 (mul32 2 (wrap32 (env.hardware_concurrency : Int)) - 1).toNat) := by
  rw [main_of_valid env argv arg n harg hn]
  generalize mul32 2 (wrap32 (env.hardware_concurrency : Int)) = bound
  exact sweep_from_start env n bound _ rfl rfl rfl rfl rfl

/-! ## Shape of the expected rows and outline -/

theorem expected_rows_length (env : Env) (m : Nat) : ∀ (k : Int) (c : Nat),
    (expected_rows env k c m).length = m := by
  induction m with
  | zero =>
    intro k c
    rfl
  | succ m ih =>
    intro k c
    simp only [expected_rows, List.length_cons, ih]

theorem expected_rows_heads (env : Env) (m : Nat) : ∀ (k : Int) (c : Nat),
    (expected_rows env k c m).map List.head?
      = (List.range m).map (fun (j : Nat) => some (Dbl.ofInt (k + (j : Int)))) := by
  induction m with
  | zero =>
    intro k c
    rfl
  | succ m ih =>
    intro k c
    rw [List.range_succ_eq_map]
    simp only [expected_rows, List.map_cons, List.map_map, ih, expected_row, List.head?_cons,
      Nat.cast_zero, add_zero]
    congr 1
    apply List.map_congr_left
    intro j _
    simp only [Function.comp_apply, Nat.succ_eq_add_one, Nat.cast_add, Nat.cast_one]
    congr 2
    ring

theorem expected_outline_eq (env : Env) (n s : Int) (m : Nat) : ∀ (k : Int) (c : Nat),
    expected_outline env n s k c m
      = (List.range m).flatMap (fun (j : Nat) =>
          expected_calls (k + (j : Int)) n s ++ [Event.row (expected_row env (k + (j : Int)) (c + 8 * j))]) := by
  induction m with
  | zero =>
    intro k c
    rfl
  | succ m ih =>
    intro k c
    rw [List.range_succ_eq_map, List.flatMap_cons, List.flatMap_map]
    simp only [expected_outline, ih, Nat.cast_zero, add_zero, Nat.mul_zero, Nat.add_zero,
      List.append_assoc]
    congr 2
    apply List.flatMap_congr
    intro j _
    simp only [Function.comp_apply, Nat.succ_eq_add_one, Nat.cast_add, Nat.cast_one]
    rw [show k + 1 + (j : Int) = k + ((j : Int) + 1) by ring,
      show c + 8 + 8 * j = c + 8 * (j + 1) by ring]

theorem row_count_in_range (h : Nat) (h1 : 1 ≤ h) (h2 : h < 1073741824) :
    (mul32 2 (wrap32 (h : Int)) - 1).toNat = 2 * h - 1 := by
  unfold mul32 wrap32
  omega

/-! ## Claims on the runners, the sweep and the output -/

/-- C8: for a unit count `N ≥ 1`, an intensity `I` and any unit type, one call
of `run_threads` builds a vector of exactly `N` units with intensity `I`, reads
the clock, calls every unit exactly once (the events between the two clock
readings are a permutation of one begin and one return per index, each begin
before its return, each return with the result of one call of a fresh unit),
reads the clock again only then, and appends exactly one duration to
`results`, whose earlier entries stay; the vector it leaves behind has exactly
`N` units, each in the state one call of a fresh unit produces; `run_processes`
does the same. -/
theorem runner_batch (U : Type) [WorkUnit U] (env : Env) (N I : Int) (hN : 1 ≤ N)
    (results : List Dbl) (w : World) :
    ∃ (ev : List Event) (w' : World),
      run_threads U env N I results w
        = Except.ok (results ++ [Dbl.seconds (env.clock (w.reads + 1) - env.clock w.reads)], w')
      ∧ run_processes U env N I results w = run_threads U env N I results w
      ∧ w'.trace = w.trace ++ [Event.construct (WorkUnit.type_name U) N.toNat I,
            Event.clock_now (env.clock w.reads)] ++ ev
            ++ [Event.clock_now (env.clock (w.reads + 1)),
                Event.destroy (List.replicate N.toNat
                  (WorkUnit.getResult (WorkUnit.call (WorkUnit.init I : U)).1))]
      ∧ ev.Perm (batch_events U I N.toNat)
      ∧ (∀ i, i < N.toNat → [Event.begin_call i,
            Event.end_call i (WorkUnit.call (WorkUnit.init I : U)).2
              (WorkUnit.getResult (WorkUnit.call (WorkUnit.init I : U)).1)].Sublist ev)
      ∧ w'.reads = w.reads + 2
      ∧ w'.cout = w.cout := by
  obtain ⟨ev, w', h1, h2, h3, h4, h5, h6⟩ := run_threads_spec U env N I (by omega) results w
  exact ⟨ev, w', h1, rfl, h2, h3, h4, h5, h6⟩

/-- Witness of C8: two CpuThread units of intensity 4. -/
theorem runner_batch_witness :
    ∃ (ev : List Event) (w' : World),
      run_threads CpuThread (still_env 1) 2 4 [Dbl.ofInt 2] {}
        = Except.ok ([Dbl.ofInt 2] ++ [Dbl.seconds ((still_env 1).clock (({} : World).reads + 1)
            - (still_env 1).clock ({} : World).reads)], w')
      ∧ run_processes CpuThread (still_env 1) 2 4 [Dbl.ofInt 2] {}
        = run_threads CpuThread (still_env 1) 2 4 [Dbl.ofInt 2] {}
      ∧ w'.trace = ({} : World).trace ++ [Event.construct (WorkUnit.type_name CpuThread) (2 : Int).toNat 4,
            Event.clock_now ((still_env 1).clock ({} : World).reads)] ++ ev
            ++ [Event.clock_now ((still_env 1).clock (({} : World).reads + 1)),
                Event.destroy (List.replicate (2 : Int).toNat
                  (WorkUnit.getResult (WorkUnit.call (WorkUnit.init 4 : CpuThread)).1))]
      ∧ ev.Perm (batch_events CpuThread 4 (2 : Int).toNat)
      ∧ (∀ i, i < (2 : Int).toNat → [Event.begin_call i,
            Event.end_call i (WorkUnit.call (WorkUnit.init 4 : CpuThread)).2
              (WorkUnit.getResult (WorkUnit.call (WorkUnit.init 4 : CpuThread)).1)].Sublist ev)
      ∧ w'.reads = ({} : World).reads + 2
      ∧ w'.cout = ({} : World).cout :=
  runner_batch CpuThread (still_env 1) 2 4 (by decide) [Dbl.ofInt 2] {}

/-- C3, amended: when the hardware concurrency `h` satisfies
`1 ≤ h < 2^30` (so that `2 * h` is an `int`) and the argument is accepted,
`main` returns 0 after exactly `2 * h - 1` rows, whose worker counts are
`1, 2, ..., 2 * h - 1` in the order produced and printed. -/
theorem sweep_rows (env : Env) (argv : List String) (arg : String) (n : Int)
    (harg : argv[1]? = some arg) (hn : stoi arg = Except.ok n)
    (h1 : 1 ≤ env.hardware_concurrency) (h2 : env.hardware_concurrency < 1073741824) :
    (main env argv).exit = Exit.returned 0
    ∧ (rows_of (main env argv).world.trace).length = 2 * env.hardware_concurrency - 1
    ∧ (rows_of (main env argv).world.trace).map List.head?
        = (List.range (2 * env.hardware_concurrency - 1)).map
            (fun (j : Nat) => some (Dbl.ofInt (1 + (j : Int))))
    ∧ (main env argv).stdout = header_line ++ table_text env (rows_of (main env argv).world.trace) := by
  obtain ⟨e1, _, e3, e4⟩ := main_spec env argv arg n harg hn
  rw [row_count_in_range env.hardware_concurrency h1 h2] at e3 e4
  refine ⟨e1, ?_, ?_, ?_⟩
  · rw [e3, expected_rows_length]
  · rw [e3, expected_rows_heads]
  · rw [e4, e3]

/-- Witness of C3, amended: hardware concurrency 2, argument `1000`. -/
theorem sweep_rows_witness :
    (main (still_env 2) ["bench", "1000"]).exit = Exit.returned 0
    ∧ (rows_of (main (still_env 2) ["bench", "1000"]).world.trace).length
        = 2 * (still_env 2).hardware_concurrency - 1
    ∧ (rows_of (main (still_env 2) ["bench", "1000"]).world.trace).map List.head?
        = (List.range (2 * (still_env 2).hardware_concurrency - 1)).map
            (fun (j : Nat) => some (Dbl.ofInt (1 + (j : Int))))
    ∧ (main (still_env 2) ["bench", "1000"]).stdout
        = header_line ++ table_text (still_env 2)
            (rows_of (main (still_env 2) ["bench", "1000"]).world.trace) :=
  sweep_rows (still_env 2) ["bench", "1000"] "1000" 1000 rfl rfl (by decide) (by decide)

/-- C3 as stated fails: with a hardware concurrency of `2^30` the product
`2 * cpu_count` wraps to a negative `int`, the sweep loop is never entered and
no row is produced, where the claim has `2^31 - 1` rows. -/
theorem overflowing_sweep_has_no_row :
    1 ≤ (still_env 1073741824).hardware_concurrency
    ∧ stoi "1000" = Except.ok 1000
    ∧ rows_of (main (still_env 1073741824) ["bench", "1000"]).world.trace = []
    ∧ (rows_of (main (still_env 1073741824) ["bench", "1000"]).world.trace).length
        ≠ 2 * (still_env 1073741824).hardware_concurrency - 1 := by
  have e := (main_spec (still_env 1073741824) ["bench", "1000"] "1000" 1000 rfl rfl).2.2.1
  have hm : (mul32 2 (wrap32 ((still_env 1073741824).hardware_concurrency : Int)) - 1).toNat = 0 := by
    decide
  rw [hm] at e
  refine ⟨by decide, rfl, e, ?_⟩
  rw [e]
  decide

set_option maxRecDepth 20000

/-- C4: on an accepted argument `n`, the runner calls and rows of `main` are,
for every worker count `w = 1, 2, ...` of the sweep in order, four runner calls
for CpuThread, CpuProcess, IoThread, IoProcess in this order, each with `w`
units, with intensity `n` for the CPU types and 1 for the I/O types, and then
the row: `w` followed by exactly four durations. -/
theorem row_from_four_calls (env : Env) (argv : List String) (arg : String) (n : Int)
    (harg : argv[1]? = some arg) (hn : stoi arg = Except.ok n) :
    outline_of (main env argv).world.trace
      = (List.range (mul32 2 (wrap32 (env.hardware_concurrency : Int)) - 1).toNat).flatMap
          (fun (j : Nat) =>
            [Event.construct "CpuThread" (j + 1) n,
             Event.construct "CpuProcess" (j + 1) n,
             Event.construct "IoThread" (j + 1) 1,
             Event.construct "IoProcess" (j + 1) 1,
             Event.row [Dbl.ofInt ((j : Int) + 1),
               Dbl.seconds (env.clock (8 * j + 1) - env.clock (8 * j)),
               Dbl.seconds (env.clock (8 * j + 3) - env.clock (8 * j + 2)),
               Dbl.seconds (env.clock (8 * j + 5) - env.clock (8 * j + 4)),
               Dbl.seconds (env.clock (8 * j + 7) - env.clock (8 * j + 6))]]) := by
  rw [(main_spec env argv arg n harg hn).2.1, expected_outline_eq]
  apply List.flatMap_congr
  intro j _
  have e1 : ((j : Int) + 1).toNat = j + 1 := by omega
  have e2 : (1 : Int) + (j : Int) = (j : Int) + 1 := by ring
  simp only [expected_calls, expected_row, e2, e1, Nat.zero_add, List.cons_append,
    List.nil_append]

/-- Witness of C4: hardware concurrency 1, argument `1000`. -/
theorem row_from_four_calls_witness :
    outline_of (main (still_env 1) ["bench", "1000"]).world.trace
      = [Event.construct "CpuThread" 1 1000,
         Event.construct "CpuProcess" 1 1000,
         Event.construct "IoThread" 1 1,
         Event.construct "IoProcess" 1 1,
         Event.row [Dbl.ofInt 1, Dbl.seconds 0, Dbl.seconds 0, Dbl.seconds 0, Dbl.seconds 0]] :=
  (row_from_four_calls (still_env 1) ["bench", "1000"] "1000" 1000 rfl rfl).trans (by decide)

/-- C5 fails on the code from the second row on: with a hardware concurrency
of 2 the three data lines start with `1` padded to width 10, then with
`2.000000e+00` and `3.000000e+00`, twelve characters in the scientific format
that the cells of the row before left set on the stream. -/
theorem second_row_scientific :
    (main (still_env 2) ["bench", "1000"]).stdout
      = "nthreads  CpuThread      CpuProcess     IoThread       IoProcess      \n"
        ++ "1         0.000000e+00   0.000000e+00   0.000000e+00   0.000000e+00   \n"
        ++ "2.000000e+000.000000e+00   0.000000e+00   0.000000e+00   0.000000e+00   \n"
        ++ "3.000000e+000.000000e+00   0.000000e+00   0.000000e+00   0.000000e+00   \n" := by
  rw [(main_spec (still_env 2) ["bench", "1000"] "1000" 1000 rfl rfl).2.2.2]
  decide

/-- C6, amended: on an accepted argument the output starts with the labels
`nthreads`, `CpuThread`, `CpuProcess`, `IoThread`, `IoProcess`, the first
left-aligned in width 10 and the others in width 15, and a newline; all that
follows are the data lines of the rows, so the header is printed once and
before every row. -/
theorem header_once (env : Env) (argv : List String) (arg : String) (n : Int)
    (harg : argv[1]? = some arg) (hn : stoi arg = Except.ok n) :
    (main env argv).stdout
      = pad Adjust.left 10 "nthreads" ++ pad Adjust.left 15 "CpuThread"
        ++ pad Adjust.left 15 "CpuProcess" ++ pad Adjust.left 15 "IoThread"
        ++ pad Adjust.left 15 "IoProcess" ++ "\n"
        ++ table_text env (rows_of (main env argv).world.trace) := by
  obtain ⟨_, _, e3, e4⟩ := main_spec env argv arg n harg hn
  rw [e4, e3]
  rfl

/-- Witness of C6: hardware concurrency 1, argument `1000`. -/
theorem header_once_witness :
    (main (still_env 1) ["bench", "1000"]).stdout
      = pad Adjust.left 10 "nthreads" ++ pad Adjust.left 15 "CpuThread"
        ++ pad Adjust.left 15 "CpuProcess" ++ pad Adjust.left 15 "IoThread"
        ++ pad Adjust.left 15 "IoProcess" ++ "\n"
        ++ table_text (still_env 1) (rows_of (main (still_env 1) ["bench", "1000"]).world.trace) :=
  header_once (still_env 1) ["bench", "1000"] "1000" 1000 rfl rfl

/-- C6 as stated fails: the first label of the header is `nthreads`, not
`worker_count`. -/
theorem header_first_label :
    (main (still_env 1) ["bench", "1000"]).stdout.toList.take 12 = "nthreads  Cp".toList
    ∧ (main (still_env 1) ["bench", "1000"]).stdout.toList.take 12 ≠ "worker_count".toList := by
  rw [(main_spec (still_env 1) ["bench", "1000"] "1000" 1000 rfl rfl).2.2.2]
  decide

theorem main_of_missing (env : Env) (argv : List String) (h : argv[1]? = none) :
    main env argv = { exit := Exit.terminated Exn.logic_error, world := {} } := by
  unfold main
  rw [h]

theorem main_of_rejected (env : Env) (argv : List String) (arg : String) (e : Exn)
    (h : argv[1]? = some arg) (he : stoi arg = Except.error e) :
    main env argv = { exit := Exit.terminated e, world := {} } := by
  unfold main
  rw [h]
  simp only [he]

/-- C7, amended: when `argv[1]` is missing or `std::stoi` rejects it (no digit
after optional white space and sign, or a value that is no `int`), `main` ends
with an uncaught exception before anything else: the log is empty (no runner
call, no row) and nothing is on standard output. -/
theorem main_rejects (env : Env) (argv : List String)
    (h : argv[1]? = none ∨ ∃ (arg : String) (e : Exn), argv[1]? = some arg ∧ stoi arg = Except.error e) :
    (∃ e : Exn, (main env argv).exit = Exit.terminated e)
    ∧ (main env argv).world.trace = []
    ∧ (main env argv).stdout = "" := by
  rcases h with h | ⟨arg, e, h, he⟩
  · rw [main_of_missing env argv h]
    exact ⟨⟨Exn.logic_error, rfl⟩, rfl, rfl⟩
  · rw [main_of_rejected env argv arg e h he]
    exact ⟨⟨e, rfl⟩, rfl, rfl⟩

/-- Witness of C7: no argument, the argument `abc`, an argument too large. -/
theorem main_rejects_witness :
    ((∃ e : Exn, (main (still_env 4) ["bench"]).exit = Exit.terminated e)
      ∧ (main (still_env 4) ["bench"]).world.trace = []
      ∧ (main (still_env 4) ["bench"]).stdout = "")
    ∧ ((∃ e : Exn, (main (still_env 4) ["bench", "abc"]).exit = Exit.terminated e)
      ∧ (main (still_env 4) ["bench", "abc"]).world.trace = []
      ∧ (main (still_env 4) ["bench", "abc"]).stdout = "")
    ∧ ((∃ e : Exn, (main (still_env 4) ["bench", "99999999999"]).exit = Exit.terminated e)
      ∧ (main (still_env 4) ["bench", "99999999999"]).world.trace = []
      ∧ (main (still_env 4) ["bench", "99999999999"]).stdout = "") :=
  ⟨main_rejects (still_env 4) ["bench"] (Or.inl rfl),
   main_rejects (still_env 4) ["bench", "abc"] (Or.inr ⟨"abc", Exn.invalid_argument, rfl, rfl⟩),
   main_rejects (still_env 4) ["bench", "99999999999"]
     (Or.inr ⟨"99999999999", Exn.out_of_range, rfl, rfl⟩)⟩

/-- C7 as stated fails: the argument `12abc` is accepted as 12; `main` prints
the header, makes its runner calls with intensity 12, prints the row and
returns 0. -/
theorem main_accepts_digit_start :
    stoi "12abc" = Except.ok 12
    ∧ (main (still_env 1) ["bench", "12abc"]).exit = Exit.returned 0
    ∧ outline_of (main (still_env 1) ["bench", "12abc"]).world.trace
        = [Event.construct "CpuThread" 1 12,
           Event.construct "CpuProcess" 1 12,
           Event.construct "IoThread" 1 1,
           Event.construct "IoProcess" 1 1,
           Event.row [Dbl.ofInt 1, Dbl.seconds 0, Dbl.seconds 0, Dbl.seconds 0, Dbl.seconds 0]]
    ∧ (main (still_env 1) ["bench", "12abc"]).stdout
        = "nthreads  CpuThread      CpuProcess     IoThread       IoProcess      \n"
          ++ "1         0.000000e+00   0.000000e+00   0.000000e+00   0.000000e+00   \n" := by
  obtain ⟨e1, e2, _, e4⟩ := main_spec (still_env 1) ["bench", "12abc"] "12abc" 12 rfl rfl
  refine ⟨rfl, e1, ?_, ?_⟩
  · rw [e2]
    decide
  · rw [e4]
    decide

end ProcessesThreads
